import Mathlib

/-!
Verification development for the farmer cocoa quota dashboard (`src/app.py`).

The dashboard is a linear fetch -> clean -> join -> derive -> filter -> render
pipeline.  This file gives a shallow embedding of its data pipeline:

* paginated table loading (`load_data_batched`, app.py lines 52-74);
* identifier normalization (`.astype(str).str.strip().str.lower()`, lines 107,
  118, 119), modelled on character lists;
* per-farmer aggregation of traceability rows with pandas `mode`
  (`groupby('farmer_id').agg`, lines 108-113);
* the left merge of the processed traceability table with the quota table
  (line 122) and the empty-input branches (lines 125-132);
* numeric coercion and gap filling (`to_numeric` / `fillna`, lines 138-155);
* the sidebar filters, their 'All' pseudo-option handling and the conjunction
  of predicates (lines 187-285);
* the key-metric summary (lines 306-311) and the status colouring function
  (lines 161-168).

Dataframe cells are modelled as `Option` values: `none` stands for a missing
cell (`NaN`/`None`), and for numeric columns also for a value that
`pd.to_numeric(errors='coerce')` failed to parse.  Row order of every list
mirrors dataframe row order.
-/

/-! ## Identifier normalization (app.py lines 107, 118, 119) -/

/-- Python `str.strip()`: drop whitespace from both ends of the character
list.  (Lean's `Char.isWhitespace` covers space, tab, CR and LF.) -/
def stripChars (l : List Char) : List Char :=
  (l.dropWhile Char.isWhitespace).rdropWhile Char.isWhitespace

/-- Pandas `.astype(str).str.strip().str.lower()`: trim, then case-fold.  Python's
`str.lower` is modelled by ASCII case folding (`Char.toLower`); the ids the
dashboard handles are ASCII. -/
def normId (s : String) : String :=
  ⟨(stripChars s.data).map Char.toLower⟩

/-- Pandas `.str.lower()` used by the farmer-id search filter (line 283). -/
def lowerStr (s : String) : String :=
  ⟨s.data.map Char.toLower⟩

/-! ## Row types (columns selected at app.py lines 96 and 101) -/

/-- One row of `quota_view` (line 96): `farmer_id, max_quota_kg,
total_net_weight_kg, quota_used_pct, quota_status`. -/
structure QuotaRow where
  farmer_id : String
  max_quota_kg : Option Rat
  total_net_weight_kg : Option Rat
  quota_used_pct : Option Rat
  quota_status : Option String
deriving DecidableEq

/-- One row of the `traceability` table (line 101): `farmer_id, export_lot,
exporter, cooperative_name, certification`. -/
structure TraceRow where
  farmer_id : String
  export_lot : Option String
  exporter : Option String
  cooperative_name : Option String
  certification : Option String
deriving DecidableEq

/-- One row of `df_combined` after the merge at line 122 (and of the
quota-only frame built at lines 126-128). -/
structure CombinedRow where
  farmer_id : String
  export_lot : Option String
  exporter : Option String
  cooperative_name : Option String
  certification : Option String
  max_quota_kg : Option Rat
  total_net_weight_kg : Option Rat
  quota_used_pct : Option Rat
  quota_status : Option String
deriving DecidableEq

/-! ## Sorting strings (python `sorted`, pandas sorted group keys / mode) -/

/-- Lexicographic order on character lists by code point, the comparison
Python uses on strings. -/
def lexLe : List Char → List Char → Bool
  | [], _ => true
  | _ :: _, [] => false
  | x :: xs, y :: ys =>
    if x.toNat < y.toNat then true
    else if y.toNat < x.toNat then false
    else lexLe xs ys

/-- String comparison, `a <= b` in Python. -/
def strLe (a b : String) : Bool :=
  lexLe a.data b.data

/-- Insert into an ascending list, keeping it ascending. -/
def insertStr (a : String) : List String → List String
  | [] => [a]
  | b :: l => if strLe a b then a :: b :: l else b :: insertStr a l

/-- Ascending string sort (insertion sort; on the total order `strLe` it
agrees with Python's `sorted` as a multiset and in order). -/
def sortStr (l : List String) : List String :=
  l.foldr insertStr []

/-! ## Traceability aggregation (app.py lines 108-113) -/

/-- pandas `Series.mode()` of a column restricted to one group: the distinct
non-missing values of maximal multiplicity, in ascending order (missing
values are ignored, as `mode` drops `NaN`). -/
def modeList (g : List (Option String)) : List String :=
  let vs := g.filterMap id
  let u := sortStr vs.dedup
  let mc := (u.map fun v => vs.count v).foldr Nat.max 0
  u.filter fun v => vs.count v == mc

/-- The aggregation lambda
`x.mode().iloc[0] if not x.mode().empty else x.iloc[0]` (lines 109-112):
first mode if one exists, otherwise the first raw value of the group (which
is then necessarily missing).  A group coming from `groupby` is never empty;
the `[]` case is unreachable there and returns `none`. -/
def aggMode (g : List (Option String)) : Option String :=
  match modeList g with
  | v :: _ => some v
  | [] =>
    match g with
    | x :: _ => x
    | [] => none

/-- Deduplication keeping first occurrences in encounter order, used to state
the spec's tie-break rule. -/
def firstDedup (l : List String) : List String :=
  l.foldl (fun acc a => if a ∈ acc then acc else acc ++ [a]) []

/-- The representative-picking rule as the claim states it: the most frequent
non-missing value of the group, with ties broken by first-encountered order.
Stated from the claim's words, for comparison with `aggMode`. -/
def modeFirstSeen (g : List (Option String)) : Option String :=
  let vs := g.filterMap id
  let u := firstDedup vs
  let mc := (u.map fun v => vs.count v).foldr Nat.max 0
  u.find? fun v => vs.count v == mc

/-- Normalize the `farmer_id` column of the traceability frame (line 107;
also reused for the renormalization of the processed frame at line 119). -/
def normTrace (T : List TraceRow) : List TraceRow :=
  T.map fun t => { t with farmer_id := normId t.farmer_id }

/-- The group keys of `groupby('farmer_id')`: the distinct values of the
(already normalized) key column, in ascending order (pandas sorts group
keys). -/
def groupKeys (rows : List TraceRow) : List String :=
  sortStr ((rows.map fun t => t.farmer_id).dedup)

/-- The aggregated row for one group key: each categorical column is
collapsed with the mode-or-first lambda over the group's rows, kept in
original row order. -/
def aggRow (rows : List TraceRow) (k : String) : TraceRow :=
  let g := rows.filter fun t => t.farmer_id == k
  { farmer_id := k
    export_lot := aggMode (g.map fun t => t.export_lot)
    exporter := aggMode (g.map fun t => t.exporter)
    cooperative_name := aggMode (g.map fun t => t.cooperative_name)
    certification := aggMode (g.map fun t => t.certification) }

/-- The frame `df_traceability_processed` (lines 108-113): one aggregated row per group
key, rows in key order. -/
def df_traceability_processed (T : List TraceRow) : List TraceRow :=
  (groupKeys (normTrace T)).map (aggRow (normTrace T))

/-- Normalize the `farmer_id` column of the quota frame (line 118). -/
def normQuota (Q : List QuotaRow) : List QuotaRow :=
  Q.map fun q => { q with farmer_id := normId q.farmer_id }

/-! ## The merge (app.py line 122) and the empty-input branches -/

/-- One output row of
`pd.merge(df_traceability_processed, df_quota, on='farmer_id', how='left')`:
the key and the traceability columns come from the left row, the quota
columns from the matching right row, or `NaN` when there is none. -/
def mergeRow (t : TraceRow) (q? : Option QuotaRow) : CombinedRow :=
  { farmer_id := t.farmer_id
    export_lot := t.export_lot
    exporter := t.exporter
    cooperative_name := t.cooperative_name
    certification := t.certification
    max_quota_kg := q?.bind fun q => q.max_quota_kg
    total_net_weight_kg := q?.bind fun q => q.total_net_weight_kg
    quota_used_pct := q?.bind fun q => q.quota_used_pct
    quota_status := q?.bind fun q => q.quota_status }

/-- Left merge on `farmer_id`: every left row appears once per matching right
row (in right order), or once with missing quota columns when nothing
matches. -/
def leftMerge (L : List TraceRow) (R : List QuotaRow) : List CombinedRow :=
  L.flatMap fun t =>
    if (R.filter fun q => q.farmer_id == t.farmer_id).isEmpty then [mergeRow t none]
    else (R.filter fun q => q.farmer_id == t.farmer_id).map fun q => mergeRow t (some q)

/-- The branch at lines 126-128: traceability empty, so `df_combined` is a
copy of the (unnormalized) quota frame with the four traceability columns
set to `None`. -/
def quotaOnlyRow (q : QuotaRow) : CombinedRow :=
  { farmer_id := q.farmer_id
    export_lot := none
    exporter := none
    cooperative_name := none
    certification := none
    max_quota_kg := q.max_quota_kg
    total_net_weight_kg := q.total_net_weight_kg
    quota_used_pct := q.quota_used_pct
    quota_status := q.quota_status }

/-! ## Numeric coercion and gap filling (app.py lines 138-155) -/

/-- Pandas `fillna(0)` after `pd.to_numeric(errors='coerce')` (lines 138-146): a
missing or unparsable numeric cell becomes `0`, a parsed value is kept. -/
def fillNum (c : Option Rat) : Option Rat :=
  match c with
  | none => some 0
  | some v => some v

/-- Pandas `fillna('Unknown')` for the categorical columns (lines 148-155). -/
def fillCat (c : Option String) : Option String :=
  match c with
  | none => some "Unknown"
  | some v => some v

/-- Lines 138-155 applied to one row of `df_combined`. -/
def fillGaps (r : CombinedRow) : CombinedRow :=
  { r with
    max_quota_kg := fillNum r.max_quota_kg
    total_net_weight_kg := fillNum r.total_net_weight_kg
    quota_used_pct := fillNum r.quota_used_pct
    quota_status := fillCat r.quota_status
    export_lot := fillCat r.export_lot
    exporter := fillCat r.exporter
    cooperative_name := fillCat r.cooperative_name
    certification := fillCat r.certification }

/-- The reconciliation pipeline (lines 104-155): build `df_combined` from the
two fetched frames, then coerce and fill.  Branches follow lines 104, 125 and
130: quota empty gives an empty frame; quota non-empty with empty
traceability copies the quota frame with `None` traceability columns; with
both non-empty, the processed traceability frame is left-merged with the
normalized quota frame (the key column of the processed frame is normalized
again at line 119, here `normTrace` applied a second time).  Gap filling
(lines 136-155) runs whenever the combined frame is non-empty. -/
def reconcile (Q : List QuotaRow) (T : List TraceRow) : List CombinedRow :=
  if Q.isEmpty then []
  else if T.isEmpty then (Q.map quotaOnlyRow).map fillGaps
  else (leftMerge (normTrace (df_traceability_processed T)) (normQuota Q)).map fillGaps

/-- Every cell of the row is present (no `NaN` survives). -/
def definedRow (r : CombinedRow) : Prop :=
  r.export_lot.isSome = true ∧ r.exporter.isSome = true ∧
  r.cooperative_name.isSome = true ∧ r.certification.isSome = true ∧
  r.max_quota_kg.isSome = true ∧ r.total_net_weight_kg.isSome = true ∧
  r.quota_used_pct.isSome = true ∧ r.quota_status.isSome = true

instance (r : CombinedRow) : Decidable (definedRow r) := by
  unfold definedRow; infer_instance

/-! ## Batched loading (app.py lines 52-74) -/

/-- The possible outcomes of one `select(...).range(offset, ...).execute()`
call: a row window, a response whose `.data` is `None`, or a raised
exception. -/
inductive Resp (α : Type) : Type where
  | rows (xs : List α)
  | noData
  | failure
deriving DecidableEq

/-- What `load_data_batched` hands back: the concatenated rows, and whether
the empty result was produced by the error paths (the `st.error` returns at
lines 62-63 and 72-74) rather than by normal termination. -/
structure LoadResult (α : Type) : Type where
  rows : List α
  failed : Bool
deriving DecidableEq

/-- The `while True` pagination loop (lines 57-69) over an abstract response
function from offsets to responses.  `fuel` bounds the number of iterations
so the definition is total; every theorem supplies enough fuel, and the
fuel-exhaustion branch (which the source, looping forever, never reaches on
such inputs) returns the accumulator. -/
def loadLoop {α : Type} (resp : Nat → Resp α) (ps : Nat) :
    Nat → Nat → List α → LoadResult α
  | 0, _, acc => ⟨acc, false⟩
  | fuel + 1, offset, acc =>
    match resp offset with
    | Resp.failure => ⟨[], true⟩
    | Resp.noData => ⟨[], true⟩
    | Resp.rows [] => ⟨acc, false⟩
    | Resp.rows (x :: xs) => loadLoop resp ps fuel (offset + ps) (acc ++ x :: xs)

/-- A fault-free table store holding row list `t`:
`.range(offset, offset + page_size - 1)` answers the window of at most
`page_size` rows starting at `offset`. -/
def pageResp {α : Type} (t : List α) (ps : Nat) : Nat → Resp α :=
  fun offset => Resp.rows ((t.drop offset).take ps)

/-- The loader `load_data_batched` (lines 52-74) against a fault-free store: paginate
from offset 0, stepping by `page_size`.  `t.length + 1` calls always
suffice. -/
def load_data_batched {α : Type} (t : List α) (ps : Nat) : LoadResult α :=
  loadLoop (pageResp t ps) ps (t.length + 1) 0 []

/-! ## Filters (app.py lines 187-285) -/

/-- The sidebar filter state: the four multiselect selections (after 'All'
resolution), the quota-percent slider bounds and the farmer-id search text
(already lowercased by `.lower()` at line 247). -/
structure Predicates where
  exporters : List String
  quota_statuses : List String
  cooperatives : List String
  certifications : List String
  min_pct : Rat
  max_pct : Rat
  search : String
deriving DecidableEq

/-- The distinct non-missing values of a column, `df[col].unique()` (after
gap filling the column has no missing cells). -/
def uniqueVals (cells : List (Option String)) : List String :=
  (cells.filterMap id).dedup

/-- A multiselect's option list, `['All'] + sorted(df[col].unique().tolist())`
(lines 187, 202, 217, 232). -/
def optionsOf (cells : List (Option String)) : List String :=
  "All" :: sortStr (uniqueVals cells)

/-- The 'All' pseudo-option resolution applied to each selection (lines
193-198 and the three analogous blocks): 'All' together with other options is
discarded; a sole 'All' expands to the sorted options without 'All' (or to
the raw options in the dead branch where 'All' is not an option). -/
def resolveAll (sel opts : List String) : List String :=
  if "All" ∈ sel ∧ 1 < sel.length then sel.filter fun o => !(o == "All")
  else if "All" ∈ sel ∧ sel.length = 1 ∧ "All" ∈ opts then
    sortStr (opts.filter fun o => !(o == "All"))
  else if "All" ∈ sel ∧ sel.length = 1 ∧ "All" ∉ opts then opts
  else sel

/-- Pandas `df[col].isin(sel)` on one cell; a missing cell never matches. -/
def cellIn (c : Option String) (sel : List String) : Bool :=
  match c with
  | some v => decide (v ∈ sel)
  | none => false

/-- Pandas `df['quota_used_pct'] >= m` on one cell; `NaN` compares false. -/
def cellGe (c : Option Rat) (m : Rat) : Bool :=
  match c with
  | some v => decide (m ≤ v)
  | none => false

/-- Pandas `df['quota_used_pct'] <= m` on one cell; `NaN` compares false. -/
def cellLe (c : Option Rat) (m : Rat) : Bool :=
  match c with
  | some v => decide (v ≤ m)
  | none => false

/-- Substring containment on character lists, modelling
`str.contains(needle)` on patterns without regex metacharacters (the spec
treats the farmer-id search as a plain substring search). -/
def containsSub (pat s : List Char) : Bool :=
  (List.range (s.length + 1)).any fun i => pat.isPrefixOf (s.drop i)

/-- The conjunction of the five dataframe-level predicates at lines 272-279. -/
def rowPred (p : Predicates) (r : CombinedRow) : Bool :=
  cellIn r.exporter p.exporters &&
  cellIn r.quota_status p.quota_statuses &&
  cellIn r.cooperative_name p.cooperatives &&
  cellIn r.certification p.certifications &&
  cellGe r.quota_used_pct p.min_pct &&
  cellLe r.quota_used_pct p.max_pct

/-- The farmer-id text filter at line 283:
`filtered_df['farmer_id'].astype(str).str.lower().str.contains(search)`. -/
def searchPred (p : Predicates) (r : CombinedRow) : Bool :=
  containsSub p.search.data (lowerStr r.farmer_id).data

/-- The frame `filtered_df` (lines 272-283): the conjunction filter, then - only when
the search text is non-empty (line 282) - the farmer-id substring filter. -/
def applyFilters (rows : List CombinedRow) (p : Predicates) : List CombinedRow :=
  if p.search = "" then rows.filter (rowPred p)
  else (rows.filter (rowPred p)).filter (searchPred p)

/-! ## Key metrics (app.py lines 306-311) -/

/-- The four key metrics. -/
structure Summary where
  total_farmers : Nat
  average_quota_used_pct : Rat
  total_max_quota_kg : Rat
  total_net_weight_kg : Rat
deriving DecidableEq

/-- Lines 306-311: each metric falls back to `0` when the filtered frame is
empty; otherwise `nunique` counts distinct farmer ids, `mean` and `sum` skip
missing cells (after gap filling no cell is missing). -/
def summarize (rows : List CombinedRow) : Summary :=
  if rows.isEmpty then ⟨0, 0, 0, 0⟩
  else
    let pcts := rows.filterMap fun r => r.quota_used_pct
    { total_farmers := ((rows.map fun r => r.farmer_id).dedup).length
      average_quota_used_pct := pcts.sum / (pcts.length : Rat)
      total_max_quota_kg := ((rows.filterMap fun r => r.max_quota_kg).sum)
      total_net_weight_kg := ((rows.filterMap fun r => r.total_net_weight_kg).sum) }

/-! ## Status taxonomy -/

/-- The function `color_quota_status` (app.py lines 161-168): the styling function, which
recognizes exactly the `EXCEEDED` / `WARNING` / `OK` status labels. -/
def color_quota_status (val : String) : String :=
  if val = "EXCEEDED" then "color: red"
  else if val = "WARNING" then "color: orange"
  else if val = "OK" then "color: green"
  else ""

/-- Modelled from the spec: the status classification is computed inside the
remote `quota_view`, which is not under `src/`; only its consumers are.  Of
the two taxonomies the spec records, this is the percentage-scale variant
(`<=80 -> OK`, `<=100 -> WARNING`, `>100 -> EXCEEDED`), the one whose labels
`color_quota_status` (lines 161-168) and the pie-chart colour domain (lines
405-413) consume, and whose scale matches the `'{:.2f}%'` formatting of
`quota_used_pct` (line 171). -/
def quota_status_rule (pct : Rat) : String :=
  if pct ≤ 80 then "OK"
  else if pct ≤ 100 then "WARNING"
  else "EXCEEDED"

/-- Modelled from the spec: `total_net_weight_kg` is computed inside the
remote `quota_view`, not under `src/`.  Per the spec it is the sum of the
non-negative numeric source weights of the farmer's traceability rows;
negative or non-numeric values are discarded, not subtracted or summed. -/
def total_net_weight_sum (ws : List (Option Rat)) : Rat :=
  (((ws.filterMap id).filter fun w => decide (0 ≤ w)).sum)

/-! ## Character-level lemmas: case folding and whitespace -/

theorem char_toNat_ofNat (n : Nat) (h : n < 55296) : (Char.ofNat n).toNat = n := by
  simp [Char.ofNat, Nat.isValidChar, h, Char.ofNatAux, Char.toNat, UInt32.toNat,
    BitVec.toNat_ofNatLt]

theorem toLower_toNat_of_upper (c : Char) (h : c.toNat ≥ 65 ∧ c.toNat ≤ 90) :
    (Char.toLower c).toNat = c.toNat + 32 := by
  simp only [Char.toLower]
  rw [if_pos h]
  exact char_toNat_ofNat _ (by omega)

theorem toLower_eq_self_of_not_upper (c : Char) (h : ¬(c.toNat ≥ 65 ∧ c.toNat ≤ 90)) :
    Char.toLower c = c := by
  simp only [Char.toLower]
  rw [if_neg h]

theorem toLower_idem (c : Char) : Char.toLower (Char.toLower c) = Char.toLower c := by
  by_cases h : c.toNat ≥ 65 ∧ c.toNat ≤ 90
  · refine toLower_eq_self_of_not_upper _ ?_
    rw [toLower_toNat_of_upper c h]
    omega
  · rw [toLower_eq_self_of_not_upper c h, toLower_eq_self_of_not_upper c h]

theorem isWhitespace_eq_false_of_toNat (c : Char)
    (h : c.toNat ≠ 32 ∧ c.toNat ≠ 9 ∧ c.toNat ≠ 13 ∧ c.toNat ≠ 10) :
    c.isWhitespace = false := by
  have hne : ∀ d : Char, c.toNat ≠ d.toNat → ¬(c = d) := by
    intro d hd hc
    exact hd (congrArg Char.toNat hc)
  simp only [Char.isWhitespace, Bool.or_eq_false_iff, decide_eq_false_iff_not]
  exact ⟨⟨⟨hne ' ' h.1, hne '\t' h.2.1⟩, hne '\x0d' h.2.2.1⟩, hne '\n' h.2.2.2⟩

theorem isWhitespace_toLower (c : Char) :
    (Char.toLower c).isWhitespace = c.isWhitespace := by
  by_cases h : c.toNat ≥ 65 ∧ c.toNat ≤ 90
  · have h1 := toLower_toNat_of_upper c h
    rw [isWhitespace_eq_false_of_toNat _ (by omega),
      isWhitespace_eq_false_of_toNat _ (by omega)]
  · rw [toLower_eq_self_of_not_upper c h]

/-! ## Lemmas on `stripChars` and `normId` -/

theorem dropWhile_stripChars (p : α → Bool) (l : List α) :
    (((l.dropWhile p).rdropWhile p)).dropWhile p = (l.dropWhile p).rdropWhile p := by
  set m := l.dropWhile p with hm
  have hmself : m.dropWhile p = m := by
    rw [hm]
    exact List.dropWhile_idempotent p l
  rcases hr : m.rdropWhile p with _ | ⟨y, ys⟩
  · rfl
  · rw [List.dropWhile_cons]
    have hpre : m.rdropWhile p <+: m := List.rdropWhile_prefix p m
    rw [hr] at hpre
    have hne : (y :: ys) ≠ ([] : List α) := by simp
    have hhead : (y :: ys).head hne = m.head (by
      intro hnil
      rw [hnil] at hpre
      exact hne (List.prefix_nil.mp hpre)) := List.IsPrefix.head hpre hne
    have hmne : m ≠ [] := by
      intro hnil
      rw [hnil] at hpre
      exact hne (List.prefix_nil.mp hpre)
    have hy : y = m.head hmne := hhead
    have hnotp : ¬ p (m.head hmne) = true := by
      have := List.dropWhile_eq_self_iff.mp hmself
      rcases m with _ | ⟨z, zs⟩
      · exact absurd rfl hmne
      · exact this (by simp)
    rw [hy, if_neg hnotp]

theorem stripChars_idem (l : List Char) : stripChars (stripChars l) = stripChars l := by
  unfold stripChars
  rw [dropWhile_stripChars, List.rdropWhile_idempotent]

theorem rdropWhile_map (f : α → β) (p : β → Bool) (l : List α) :
    (l.map f).rdropWhile p = (l.rdropWhile (p ∘ f)).map f := by
  simp only [List.rdropWhile]
  rw [← List.map_reverse, List.dropWhile_map, ← List.map_reverse]

theorem stripChars_map_toLower (l : List Char) :
    stripChars (l.map Char.toLower) = (stripChars l).map Char.toLower := by
  have hws : (Char.isWhitespace ∘ Char.toLower) = Char.isWhitespace := by
    funext c
    exact isWhitespace_toLower c
  unfold stripChars
  rw [List.dropWhile_map, hws, rdropWhile_map, hws]

theorem map_toLower_idem (l : List Char) :
    (l.map Char.toLower).map Char.toLower = l.map Char.toLower := by
  rw [List.map_map]
  exact List.map_congr_left fun c _ => toLower_idem c

theorem normId_idem (s : String) : normId (normId s) = normId s := by
  show (⟨(stripChars ((stripChars s.data).map Char.toLower)).map Char.toLower⟩ : String) = _
  rw [stripChars_map_toLower, stripChars_idem, map_toLower_idem]
  rfl

/-! ## Lemmas on the string order and `sortStr` -/

theorem lexLe_total : ∀ a b : List Char, lexLe a b = true ∨ lexLe b a = true
  | [], _ => Or.inl rfl
  | _ :: _, [] => Or.inr rfl
  | x :: xs, y :: ys => by
    by_cases h1 : x.toNat < y.toNat
    · left
      simp [lexLe, h1]
    · by_cases h2 : y.toNat < x.toNat
      · right
        simp [lexLe, h2]
      · rcases lexLe_total xs ys with h | h
        · left
          simp [lexLe, h1, h2, h]
        · right
          simp [lexLe, h1, h2, h]

theorem lexLe_trans : ∀ a b c : List Char,
    lexLe a b = true → lexLe b c = true → lexLe a c = true
  | [], _, _ => by
    intro _ _
    rfl
  | _ :: _, [], _ => by
    intro h _
    exact absurd h (by simp [lexLe])
  | _ :: _, _ :: _, [] => by
    intro _ h
    exact absurd h (by simp [lexLe])
  | x :: xs, y :: ys, z :: zs => by
    intro h1 h2
    simp only [lexLe] at h1 h2 ⊢
    by_cases hxy1 : x.toNat < y.toNat
    · rw [if_pos hxy1] at h1
      by_cases hyz1 : y.toNat < z.toNat
      · rw [if_pos (by omega)]
      · rw [if_neg hyz1] at h2
        by_cases hyz2 : z.toNat < y.toNat
        · rw [if_pos hyz2] at h2
          exact absurd h2 (by simp)
        · rw [if_pos (by omega)]
    · rw [if_neg hxy1] at h1
      by_cases hxy2 : y.toNat < x.toNat
      · rw [if_pos hxy2] at h1
        exact absurd h1 (by simp)
      · rw [if_neg hxy2] at h1
        by_cases hyz1 : y.toNat < z.toNat
        · rw [if_pos (by omega)]
        · rw [if_neg hyz1] at h2
          by_cases hyz2 : z.toNat < y.toNat
          · rw [if_pos hyz2] at h2
            exact absurd h2 (by simp)
          · rw [if_neg hyz2] at h2
            rw [if_neg (by omega), if_neg (by omega)]
            exact lexLe_trans xs ys zs h1 h2

theorem strLe_total (a b : String) : strLe a b = true ∨ strLe b a = true :=
  lexLe_total a.data b.data

theorem strLe_trans (a b c : String) :
    strLe a b = true → strLe b c = true → strLe a c = true :=
  lexLe_trans a.data b.data c.data

theorem insertStr_perm (a : String) (l : List String) : (insertStr a l).Perm (a :: l) := by
  induction l with
  | nil => exact List.Perm.refl _
  | cons b t ih =>
    by_cases h : strLe a b
    · simp only [insertStr, if_pos h]
      exact List.Perm.refl _
    · simp only [insertStr, if_neg h]
      exact (List.Perm.cons b ih).trans (List.Perm.swap a b t)

theorem sortStr_perm (l : List String) : (sortStr l).Perm l := by
  induction l with
  | nil => exact List.Perm.refl _
  | cons a t ih =>
    exact (insertStr_perm a (sortStr t)).trans (List.Perm.cons a ih)

theorem mem_sortStr {x : String} {l : List String} : x ∈ sortStr l ↔ x ∈ l :=
  (sortStr_perm l).mem_iff

theorem nodup_sortStr {l : List String} (h : l.Nodup) : (sortStr l).Nodup :=
  ((sortStr_perm l).nodup_iff).mpr h

theorem pairwise_insertStr (a : String) (l : List String)
    (h : l.Pairwise fun x y => strLe x y = true) :
    (insertStr a l).Pairwise fun x y => strLe x y = true := by
  induction l with
  | nil => simp [insertStr]
  | cons b t ih =>
    rcases List.pairwise_cons.mp h with ⟨hb, ht⟩
    by_cases hab : strLe a b
    · simp only [insertStr, if_pos hab]
      refine List.pairwise_cons.mpr ⟨?_, h⟩
      intro x hx
      rcases List.mem_cons.mp hx with rfl | hx
      · exact hab
      · exact strLe_trans a b x hab (hb x hx)
    · simp only [insertStr, if_neg hab]
      refine List.pairwise_cons.mpr ⟨?_, ih ht⟩
      intro x hx
      have hx' : x ∈ a :: t := (insertStr_perm a t).mem_iff.mp hx
      rcases List.mem_cons.mp hx' with hxa | hx'
      · subst hxa
        rcases strLe_total x b with h1 | h1
        · exact absurd h1 hab
        · exact h1
      · exact hb x hx'

theorem sortStr_pairwise (l : List String) :
    (sortStr l).Pairwise fun x y => strLe x y = true := by
  induction l with
  | nil => simp [sortStr]
  | cons a t ih => exact pairwise_insertStr a (sortStr t) ih

/-! ## Lemmas on `foldr Nat.max` -/

theorem foldr_max_mem : ∀ l : List Nat, l ≠ [] → l.foldr Nat.max 0 ∈ l
  | [], h => absurd rfl h
  | a :: t, _ => by
    rcases ht : t with _ | ⟨b, t2⟩
    · simp
    · rw [← ht]
      have hmem := foldr_max_mem t (by rw [ht]; simp)
      simp only [List.foldr_cons]
      rcases Nat.le_total a (t.foldr Nat.max 0) with h | h
      · have hh : Nat.max a (t.foldr Nat.max 0) = t.foldr Nat.max 0 := by
          simp [Nat.max_def, h]
        rw [hh]
        exact List.mem_cons_of_mem a hmem
      · have hh : Nat.max a (t.foldr Nat.max 0) = a := by
          simp only [Nat.max_def]
          split <;> omega
        rw [hh]
        exact List.mem_cons_self a t

theorem le_foldr_max (l : List Nat) : ∀ x ∈ l, x ≤ l.foldr Nat.max 0 := by
  induction l with
  | nil => intro x hx; exact absurd hx (List.not_mem_nil x)
  | cons a t ih =>
    intro x hx
    have hle : t.foldr Nat.max 0 ≤ Nat.max a (t.foldr Nat.max 0) := by
      simp only [Nat.max_def]
      split <;> omega
    rcases List.mem_cons.mp hx with rfl | hx
    · simp only [List.foldr_cons, Nat.max_def]
      split <;> omega
    · exact Nat.le_trans (ih x hx) hle

/-! ## Lemmas on the pipeline: gap filling and key columns -/

theorem fillNum_isSome (c : Option Rat) : (fillNum c).isSome = true := by
  cases c <;> rfl

theorem fillCat_isSome (c : Option String) : (fillCat c).isSome = true := by
  cases c <;> rfl

theorem definedRow_fillGaps (r : CombinedRow) : definedRow (fillGaps r) :=
  ⟨fillCat_isSome _, fillCat_isSome _, fillCat_isSome _, fillCat_isSome _,
   fillNum_isSome _, fillNum_isSome _, fillNum_isSome _, fillCat_isSome _⟩

theorem map_self_eq (l : List String) (f : String → String) (h : ∀ x ∈ l, f x = x) :
    l.map f = l := by
  induction l with
  | nil => rfl
  | cons a t ih =>
    rw [List.map_cons, h a (List.mem_cons_self a t),
      ih fun x hx => h x (List.mem_cons_of_mem a hx)]

theorem filter_key_length_le_one (R : List QuotaRow) (k : String)
    (hU : (R.map fun q => q.farmer_id).Nodup) :
    (R.filter fun q => q.farmer_id == k).length ≤ 1 := by
  have h1 : (R.filter fun q => q.farmer_id == k).length
      = List.countP (fun q => q.farmer_id == k) R :=
    (List.countP_eq_length_filter _ _).symm
  have h2 : List.countP (fun q => q.farmer_id == k) R
      = List.count k (R.map fun q => q.farmer_id) := by
    rw [List.count_eq_countP, List.countP_map]
    rfl
  rw [h1, h2]
  exact List.nodup_iff_count_le_one.mp hU k

theorem leftMerge_map_farmer_id (L : List TraceRow) (R : List QuotaRow)
    (hU : (R.map fun q => q.farmer_id).Nodup) :
    (leftMerge L R).map (fun c => c.farmer_id) = L.map fun t => t.farmer_id := by
  induction L with
  | nil => rfl
  | cons t L' ih =>
    have hsplit : leftMerge (t :: L') R
        = (if (R.filter fun q => q.farmer_id == t.farmer_id).isEmpty
            then [mergeRow t none]
            else (R.filter fun q => q.farmer_id == t.farmer_id).map fun q =>
              mergeRow t (some q))
          ++ leftMerge L' R := by
      simp only [leftMerge, List.flatMap_cons]
    have hgrp : ((if (R.filter fun q => q.farmer_id == t.farmer_id).isEmpty
        then [mergeRow t none]
        else (R.filter fun q => q.farmer_id == t.farmer_id).map fun q =>
          mergeRow t (some q)).map fun c => c.farmer_id) = [t.farmer_id] := by
      rcases hms : R.filter fun q => q.farmer_id == t.farmer_id with _ | ⟨q, ms'⟩
      · rw [hms]
        simp [mergeRow]
      · have hlen := filter_key_length_le_one R t.farmer_id hU
        rw [hms] at hlen
        have hms' : ms' = [] := by
          cases ms'
          · rfl
          · simp at hlen
        subst hms'
        rw [hms]
        simp [mergeRow]
    rw [hsplit, List.map_append, hgrp, ih, List.map_cons]
    rfl

theorem df_traceability_processed_map_farmer_id (T : List TraceRow) :
    (df_traceability_processed T).map (fun t => t.farmer_id) = groupKeys (normTrace T) := by
  unfold df_traceability_processed
  rw [List.map_map]
  exact map_self_eq _ _ fun k _ => rfl

theorem normTrace_map_farmer_id (T : List TraceRow) :
    (normTrace T).map (fun t => t.farmer_id) = T.map fun t => normId t.farmer_id := by
  unfold normTrace
  rw [List.map_map]
  rfl

theorem groupKeys_normTrace_fixed (T : List TraceRow) :
    ∀ k ∈ groupKeys (normTrace T), normId k = k := by
  intro k hk
  have h1 : k ∈ ((normTrace T).map fun t => t.farmer_id).dedup := mem_sortStr.mp hk
  have h2 : k ∈ (normTrace T).map fun t => t.farmer_id := List.mem_dedup.mp h1
  rw [normTrace_map_farmer_id] at h2
  rcases List.mem_map.mp h2 with ⟨t, _, hteq⟩
  rw [← hteq]
  exact normId_idem t.farmer_id

theorem renorm_processed_map_farmer_id (T : List TraceRow) :
    (normTrace (df_traceability_processed T)).map (fun t => t.farmer_id)
      = groupKeys (normTrace T) := by
  rw [normTrace_map_farmer_id]
  have h1 : (df_traceability_processed T).map (fun t => normId t.farmer_id)
      = ((df_traceability_processed T).map fun t => t.farmer_id).map normId := by
    rw [List.map_map]
    rfl
  rw [h1, df_traceability_processed_map_farmer_id]
  exact map_self_eq _ _ fun k hk => groupKeys_normTrace_fixed T k hk

theorem reconcile_map_farmer_id (Q : List QuotaRow) (T : List TraceRow)
    (hQ : Q ≠ []) (hT : T ≠ [])
    (hU : ((normQuota Q).map fun q => q.farmer_id).Nodup) :
    (reconcile Q T).map (fun r => r.farmer_id) = groupKeys (normTrace T) := by
  unfold reconcile
  rw [if_neg fun h => hQ (List.isEmpty_iff.mp h),
    if_neg fun h => hT (List.isEmpty_iff.mp h), List.map_map]
  have hcomp : ((fun r : CombinedRow => r.farmer_id) ∘ fillGaps)
      = fun r : CombinedRow => r.farmer_id := by
    funext r
    rfl
  rw [hcomp, leftMerge_map_farmer_id _ _ hU]
  exact renorm_processed_map_farmer_id T

/-! ## Claim C1 -/

/-- Claim C1 counterexample.  The merge at app.py line 122 puts the
traceability summary on the LEFT and the quota frame on the right, so with a
quota row for farmer "a" and a traceability row for farmer "b" the reconciled
output consists of exactly one record, for "b" (present only in
traceability), and no record for "a" (the farmer with the quota record) -
the opposite of the claim. -/
theorem c1_counterexample :
    ((reconcile [⟨"a", none, none, none, none⟩] [⟨"b", none, none, none, none⟩]).map
        fun r => r.farmer_id) = ["b"] ∧
    normId "a" = "a" ∧ normId "b" = "b" ∧
    ¬ ("a" ∈ (reconcile [⟨"a", none, none, none, none⟩] [⟨"b", none, none, none, none⟩]).map
        fun r => r.farmer_id) := by
  decide

/-- Claim C1 (amended): for non-empty quota rows `Q` and non-empty
traceability rows `T`, provided the normalized quota `farmer_id`s are
pairwise distinct, the reconciled output has exactly one record per farmer
with a traceability record (by normalized `farmer_id`) - also when no quota
record matches - and no record for a farmer present only in the quota rows;
consequently `farmer_id` is unique across the output. -/
theorem c1_reconciled_keys (Q : List QuotaRow) (T : List TraceRow)
    (hQ : Q ≠ []) (hT : T ≠ [])
    (hU : ((normQuota Q).map fun q => q.farmer_id).Nodup) :
    ((reconcile Q T).map fun r => r.farmer_id).Nodup ∧
    ∀ x, (x ∈ (reconcile Q T).map fun r => r.farmer_id) ↔
      ∃ t ∈ T, normId t.farmer_id = x := by
  rw [reconcile_map_farmer_id Q T hQ hT hU]
  constructor
  · exact nodup_sortStr (List.nodup_dedup _)
  · intro x
    constructor
    · intro hx
      have h2 := List.mem_dedup.mp (mem_sortStr.mp hx)
      rw [normTrace_map_farmer_id] at h2
      rcases List.mem_map.mp h2 with ⟨t, ht, hteq⟩
      exact ⟨t, ht, hteq⟩
    · rintro ⟨t, ht, hteq⟩
      apply mem_sortStr.mpr
      apply List.mem_dedup.mpr
      rw [normTrace_map_farmer_id]
      exact List.mem_map.mpr ⟨t, ht, hteq⟩

/-- Claim C1 witness: the amended statement at a concrete input. -/
theorem c1_witness :
    ((reconcile [⟨" A ", some 10, some 5, some 50, some "OK"⟩]
        [⟨"a", some "L1", some "E1", some "C1", some "Cert"⟩,
         ⟨"b", none, none, none, none⟩]).map fun r => r.farmer_id).Nodup ∧
    ∀ x, (x ∈ (reconcile [⟨" A ", some 10, some 5, some 50, some "OK"⟩]
        [⟨"a", some "L1", some "E1", some "C1", some "Cert"⟩,
         ⟨"b", none, none, none, none⟩]).map fun r => r.farmer_id) ↔
      ∃ t ∈ [(⟨"a", some "L1", some "E1", some "C1", some "Cert"⟩ : TraceRow),
             ⟨"b", none, none, none, none⟩], normId t.farmer_id = x :=
  c1_reconciled_keys _ _ (by decide) (by decide) (by decide)

/-! ## Claim C3 -/

theorem reconcile_definedRow (Q : List QuotaRow) (T : List TraceRow) :
    ∀ r ∈ reconcile Q T, definedRow r := by
  intro r hr
  unfold reconcile at hr
  split at hr
  · exact absurd hr (List.not_mem_nil r)
  · split at hr
    · rcases List.mem_map.mp hr with ⟨c, _, rfl⟩
      exact definedRow_fillGaps c
    · rcases List.mem_map.mp hr with ⟨c, _, rfl⟩
      exact definedRow_fillGaps c

/-- Claim C3: after numeric coercion and gap filling every reconciled record
has a defined value in every column; a missing or unparsable numeric cell
(`max_quota_kg`, `total_net_weight_kg`, `quota_used_pct`) becomes `0` and a
missing categorical cell (`quota_status`, `export_lot`, `exporter`,
`cooperative_name`, `certification`) becomes the literal string `"Unknown"`;
in particular a zero or missing denominator never leaves `quota_used_pct`
undefined. -/
theorem c3_gap_filling :
    (∀ (Q : List QuotaRow) (T : List TraceRow), ∀ r ∈ reconcile Q T, definedRow r) ∧
    (∀ c : CombinedRow,
      (c.max_quota_kg = none → (fillGaps c).max_quota_kg = some 0) ∧
      (c.total_net_weight_kg = none → (fillGaps c).total_net_weight_kg = some 0) ∧
      (c.quota_used_pct = none → (fillGaps c).quota_used_pct = some 0) ∧
      (c.quota_status = none → (fillGaps c).quota_status = some "Unknown") ∧
      (c.export_lot = none → (fillGaps c).export_lot = some "Unknown") ∧
      (c.exporter = none → (fillGaps c).exporter = some "Unknown") ∧
      (c.cooperative_name = none → (fillGaps c).cooperative_name = some "Unknown") ∧
      (c.certification = none → (fillGaps c).certification = some "Unknown")) := by
  refine ⟨reconcile_definedRow, fun c => ?_⟩
  refine ⟨fun h => ?_, fun h => ?_, fun h => ?_, fun h => ?_, fun h => ?_,
    fun h => ?_, fun h => ?_, fun h => ?_⟩ <;>
    simp [fillGaps, fillNum, fillCat, h]

/-- Claim C3 witness: the statement at a concrete all-missing row. -/
theorem c3_witness :
    definedRow (fillGaps (quotaOnlyRow ⟨"x", none, none, none, none⟩)) ∧
    (fillGaps (quotaOnlyRow ⟨"x", none, none, none, none⟩)).max_quota_kg = some 0 :=
  ⟨c3_gap_filling.1 [⟨"x", none, none, none, none⟩] [] _ (by decide),
   (c3_gap_filling.2 (quotaOnlyRow ⟨"x", none, none, none, none⟩)).1 rfl⟩

/-! ## Claim C7 -/

theorem leftMerge_total_cases (L : List TraceRow) (R : List QuotaRow)
    (c : CombinedRow) (hc : c ∈ leftMerge L R) :
    c.total_net_weight_kg = none ∨
      ∃ q ∈ R, c.total_net_weight_kg = q.total_net_weight_kg := by
  rcases List.mem_flatMap.mp hc with ⟨t, _, hct⟩
  split at hct
  · left
    rw [List.mem_singleton.mp hct]
    rfl
  · right
    rcases List.mem_map.mp hct with ⟨q, hq, rfl⟩
    exact ⟨q, List.mem_of_mem_filter hq, rfl⟩

theorem fillNum_nonneg (c : Option Rat) (h : ∀ u : Rat, c = some u → 0 ≤ u) :
    ∀ v : Rat, fillNum c = some v → 0 ≤ v := by
  intro v hv
  cases c with
  | none =>
    have h0 : some (0 : Rat) = some v := hv
    rw [← Option.some.inj h0]
  | some w =>
    rw [← Option.some.inj hv]
    exact h w rfl

/-- Claim C7: `total_net_weight_kg` is non-negative: the (spec-modelled)
view-side sum discards negative and non-numeric weight contributions, hence
is non-negative, and reconciliation preserves non-negativity of every
record's `total_net_weight_kg` (missing cells are filled with `0`). -/
theorem c7_total_net_weight_nonneg :
    (∀ ws : List (Option Rat), 0 ≤ total_net_weight_sum ws) ∧
    (∀ (Q : List QuotaRow) (T : List TraceRow),
      (∀ q ∈ Q, ∀ v : Rat, q.total_net_weight_kg = some v → 0 ≤ v) →
      ∀ r ∈ reconcile Q T, ∀ v : Rat, r.total_net_weight_kg = some v → 0 ≤ v) := by
  constructor
  · intro ws
    refine List.sum_nonneg fun x hx => ?_
    exact of_decide_eq_true (List.mem_filter.mp hx).2
  · intro Q T hw r hr v hv
    unfold reconcile at hr
    split at hr
    · exact absurd hr (List.not_mem_nil r)
    · split at hr
      · rcases List.mem_map.mp hr with ⟨c, hc, rfl⟩
        rcases List.mem_map.mp hc with ⟨q0, hq0, rfl⟩
        exact fillNum_nonneg q0.total_net_weight_kg
          (fun u hu => hw q0 hq0 u hu) v hv
      · rcases List.mem_map.mp hr with ⟨c, hc, rfl⟩
        refine fillNum_nonneg c.total_net_weight_kg ?_ v hv
        intro u hu
        rcases leftMerge_total_cases _ _ c hc with hnone | ⟨q, hqR, hqt⟩
        · rw [hnone] at hu
          exact absurd hu (by simp)
        · rw [hqt] at hu
          rcases List.mem_map.mp hqR with ⟨q0, hq0, rfl⟩
          exact hw q0 hq0 u hu

/-- Claim C7 witness: the statement at concrete inputs. -/
theorem c7_witness :
    0 ≤ total_net_weight_sum [some 2, some (-3), none] ∧ (0 : Rat) ≤ 5 := by
  refine ⟨c7_total_net_weight_nonneg.1 _, ?_⟩
  refine c7_total_net_weight_nonneg.2 [⟨"x", none, some 5, none, none⟩] [] ?_
    (fillGaps (quotaOnlyRow ⟨"x", none, some 5, none, none⟩)) (by decide) 5 rfl
  intro q hq v hv
  rw [List.mem_singleton] at hq
  subst hq
  injection hv with h
  rw [← h]
  decide

/-! ## Claim C2 -/

/-- Claim C2 counterexample.  The status taxonomy of this revision is the
percentage-scale `OK` / `WARNING` / `EXCEEDED` one (the only labels
`color_quota_status` and the pie chart recognize), so `quota_used_pct = 0.5`
classifies as `"OK"`, not `"Meeting Quota"`, and `1.0` also as `"OK"`, not
`"Exceeding Quota"`; the in-source styling function does not even recognize
the claim's labels. -/
theorem c2_counterexample :
    quota_status_rule (1 / 2) = "OK" ∧ quota_status_rule 1 = "OK" ∧
    "OK" ≠ "Meeting Quota" ∧ "OK" ≠ "Exceeding Quota" ∧
    color_quota_status "Meeting Quota" = "" := by
  refine ⟨?_, ?_, by decide, by decide, by decide⟩
  · unfold quota_status_rule
    rw [if_pos (by norm_num)]
  · unfold quota_status_rule
    rw [if_pos (by norm_num)]

/-- Claim C2 (amended): `quota_status` is a pure, total, three-way function
of `quota_used_pct` on the percentage scale, with upper bounds closed:
`pct <= 80` gives `"OK"`, `80 < pct <= 100` gives `"WARNING"` and
`pct > 100` gives `"EXCEEDED"`; every produced label is one the in-source
styling function `color_quota_status` recognizes. -/
theorem c2_status_rule (pct : Rat) :
    (pct ≤ 80 → quota_status_rule pct = "OK") ∧
    (80 < pct → pct ≤ 100 → quota_status_rule pct = "WARNING") ∧
    (100 < pct → quota_status_rule pct = "EXCEEDED") ∧
    color_quota_status (quota_status_rule pct) ≠ "" := by
  refine ⟨fun h => ?_, fun h1 h2 => ?_, fun h => ?_, ?_⟩
  · unfold quota_status_rule
    rw [if_pos h]
  · unfold quota_status_rule
    rw [if_neg (not_le.mpr h1), if_pos h2]
  · unfold quota_status_rule
    rw [if_neg (not_le.mpr (by linarith)), if_neg (not_le.mpr h)]
  · unfold quota_status_rule
    by_cases h1 : pct ≤ 80
    · rw [if_pos h1]
      decide
    · by_cases h2 : pct ≤ 100
      · rw [if_neg h1, if_pos h2]
        decide
      · rw [if_neg h1, if_neg h2]
        decide

/-- Claim C2 witness: the amended statement at concrete percentages. -/
theorem c2_witness :
    quota_status_rule 50 = "OK" ∧ quota_status_rule 90 = "WARNING" ∧
    quota_status_rule 120 = "EXCEEDED" :=
  ⟨(c2_status_rule 50).1 (by norm_num),
   (c2_status_rule 90).2.1 (by norm_num) (by norm_num),
   (c2_status_rule 120).2.2.1 (by norm_num)⟩

/-! ## Claim C4 -/

theorem lexLe_refl : ∀ l : List Char, lexLe l l = true
  | [] => rfl
  | x :: xs => by
    simp only [lexLe, Nat.lt_irrefl, if_false]
    exact lexLe_refl xs

theorem strLe_refl (a : String) : strLe a a = true :=
  lexLe_refl a.data

/-- Claim C4 counterexample.  In the group with values `"b"` then `"a"`
(each once), pandas `mode()` returns the tied values in sorted order and
`iloc[0]` picks `"a"`, the lexicographically least - not `"b"`, the
first-encountered value required by the claim. -/
theorem c4_counterexample :
    aggMode [some "b", some "a"] = some "a" ∧
    modeFirstSeen [some "b", some "a"] = some "b" ∧
    (some "a" : Option String) ≠ some "b" := by
  decide

/-- Claim C4 (amended): for every group, the aggregated representative is a
most frequent non-missing value, with ties broken by the lexicographically
least such value (pandas `mode()` returns modes in sorted order); a group
whose values are all missing propagates the column as missing rather than
raising. -/
theorem c4_mode_tiebreak (g : List (Option String)) :
    (g.filterMap id ≠ [] →
      ∃ v, aggMode g = some v ∧ v ∈ g.filterMap id ∧
        (∀ w ∈ g.filterMap id,
          (g.filterMap id).count w ≤ (g.filterMap id).count v) ∧
        (∀ w ∈ g.filterMap id,
          (g.filterMap id).count w = (g.filterMap id).count v → strLe v w = true)) ∧
    ((∀ x ∈ g, x = none) → aggMode g = none) := by
  constructor
  · intro hvs
    have hune : sortStr (g.filterMap id).dedup ≠ [] := by
      intro hnil
      have hperm := sortStr_perm (g.filterMap id).dedup
      rw [hnil] at hperm
      have : (g.filterMap id).dedup = [] := hperm.nil_eq.symm
      exact hvs (by
        rcases hfm : g.filterMap id with _ | ⟨a, t⟩
        · rfl
        · rw [hfm] at this
          have ha : a ∈ (a :: t).dedup := List.mem_dedup.mpr (List.mem_cons_self a t)
          rw [this] at ha
          exact absurd ha (List.not_mem_nil a))
    have hcne : (sortStr (g.filterMap id).dedup).map
        (fun v => (g.filterMap id).count v) ≠ [] := by
      intro hnil
      exact hune (List.map_eq_nil_iff.mp hnil)
    have hmcmem := foldr_max_mem _ hcne
    rcases List.mem_map.mp hmcmem with ⟨v0, hv0u, hv0c⟩
    have hfil : v0 ∈ (sortStr (g.filterMap id).dedup).filter
        fun v => (g.filterMap id).count v ==
          (((sortStr (g.filterMap id).dedup).map
            fun v => (g.filterMap id).count v).foldr Nat.max 0) := by
      refine List.mem_filter.mpr ⟨hv0u, ?_⟩
      exact beq_iff_eq.mpr hv0c
    have hml : modeList g = (sortStr (g.filterMap id).dedup).filter
        fun v => (g.filterMap id).count v ==
          (((sortStr (g.filterMap id).dedup).map
            fun v => (g.filterMap id).count v).foldr Nat.max 0) := rfl
    rcases hfl : (sortStr (g.filterMap id).dedup).filter
        fun v => (g.filterMap id).count v ==
          (((sortStr (g.filterMap id).dedup).map
            fun v => (g.filterMap id).count v).foldr Nat.max 0) with _ | ⟨v, rest⟩
    · rw [hfl] at hfil
      exact absurd hfil (List.not_mem_nil v0)
    · have hvfil : v ∈ (sortStr (g.filterMap id).dedup).filter
          fun v => (g.filterMap id).count v ==
            (((sortStr (g.filterMap id).dedup).map
              fun v => (g.filterMap id).count v).foldr Nat.max 0) := by
        rw [hfl]
        exact List.mem_cons_self v rest
      have hvu : v ∈ sortStr (g.filterMap id).dedup := (List.mem_filter.mp hvfil).1
      have hvmc : (g.filterMap id).count v
          = ((sortStr (g.filterMap id).dedup).map
            fun v => (g.filterMap id).count v).foldr Nat.max 0 :=
        beq_iff_eq.mp (List.mem_filter.mp hvfil).2
      refine ⟨v, ?_, ?_, ?_, ?_⟩
      · unfold aggMode
        rw [hml, hfl]
      · exact List.mem_dedup.mp (mem_sortStr.mp hvu)
      · intro w hw
        have hwu : w ∈ sortStr (g.filterMap id).dedup :=
          mem_sortStr.mpr (List.mem_dedup.mpr hw)
        have : (g.filterMap id).count w ∈ (sortStr (g.filterMap id).dedup).map
            fun v => (g.filterMap id).count v := List.mem_map_of_mem _ hwu
        rw [hvmc]
        exact le_foldr_max _ _ this
      · intro w hw hcnt
        have hwu : w ∈ sortStr (g.filterMap id).dedup :=
          mem_sortStr.mpr (List.mem_dedup.mpr hw)
        have hwfil : w ∈ (sortStr (g.filterMap id).dedup).filter
            fun v => (g.filterMap id).count v ==
              (((sortStr (g.filterMap id).dedup).map
                fun v => (g.filterMap id).count v).foldr Nat.max 0) := by
          refine List.mem_filter.mpr ⟨hwu, ?_⟩
          refine beq_iff_eq.mpr ?_
          rw [hcnt, hvmc]
        rw [hfl] at hwfil
        rcases List.mem_cons.mp hwfil with hwv | hwrest
        · rw [hwv]
          exact strLe_refl v
        · have hpw : ((sortStr (g.filterMap id).dedup).filter
              fun v => (g.filterMap id).count v ==
                (((sortStr (g.filterMap id).dedup).map
                  fun v => (g.filterMap id).count v).foldr Nat.max 0)).Pairwise
              fun x y => strLe x y = true :=
            (sortStr_pairwise _).filter _
          rw [hfl] at hpw
          exact (List.pairwise_cons.mp hpw).1 w hwrest
  · intro h
    have hvs : g.filterMap id = [] :=
      List.filterMap_eq_nil_iff.mpr fun a ha => by
        rw [h a ha]
        rfl
    have hml : modeList g = [] := by
      unfold modeList
      rw [hvs]
      rfl
    unfold aggMode
    rw [hml]
    cases g with
    | nil => rfl
    | cons x t =>
      exact h x (List.mem_cons_self x t)

/-- Claim C4 witness: the amended statement at concrete groups. -/
theorem c4_witness :
    (∃ v, aggMode [some "x", none, some "x", some "y"] = some v ∧
      v ∈ [some "x", none, some "x", some "y"].filterMap id ∧
      (∀ w ∈ [some "x", none, some "x", some "y"].filterMap id,
        ([some "x", none, some "x", some "y"].filterMap id).count w ≤
          ([some "x", none, some "x", some "y"].filterMap id).count v) ∧
      (∀ w ∈ [some "x", none, some "x", some "y"].filterMap id,
        ([some "x", none, some "x", some "y"].filterMap id).count w =
          ([some "x", none, some "x", some "y"].filterMap id).count v →
          strLe v w = true)) ∧
    aggMode [(none : Option String), none] = none :=
  ⟨(c4_mode_tiebreak [some "x", none, some "x", some "y"]).1 (by decide),
   (c4_mode_tiebreak [none, none]).2 (by decide)⟩

/-! ## Claim C5 -/

theorem loadLoop_honest {α : Type} (t : List α) (ps : Nat) (hps : 0 < ps) :
    ∀ (fuel offset : Nat) (acc : List α), t.length - offset < fuel →
      loadLoop (pageResp t ps) ps fuel offset acc = ⟨acc ++ t.drop offset, false⟩ := by
  intro fuel
  induction fuel with
  | zero =>
    intro offset acc h
    omega
  | succ f ih =>
    intro offset acc h
    rcases hd : t.drop offset with _ | ⟨y, ys⟩
    · simp [loadLoop, pageResp, hd]
    · rcases ps with _ | p
      · omega
      · have hwin : (t.drop offset).take (p + 1) = y :: ys.take p := by
          rw [hd, List.take_succ_cons]
        have hoff : offset < t.length := by
          have := List.length_drop offset t
          rw [hd] at this
          simp at this
          omega
        have hstep : loadLoop (pageResp t (p + 1)) (p + 1) (f + 1) offset acc
            = loadLoop (pageResp t (p + 1)) (p + 1) f (offset + (p + 1))
              (acc ++ y :: ys.take p) := by
          show (match pageResp t (p + 1) offset with
            | Resp.failure => (⟨[], true⟩ : LoadResult α)
            | Resp.noData => ⟨[], true⟩
            | Resp.rows [] => ⟨acc, false⟩
            | Resp.rows (x :: xs) =>
              loadLoop (pageResp t (p + 1)) (p + 1) f (offset + (p + 1))
                (acc ++ x :: xs)) = _
          rw [show pageResp t (p + 1) offset
            = Resp.rows ((t.drop offset).take (p + 1)) from rfl, hwin]
        rw [hstep, ih (offset + (p + 1)) (acc ++ y :: ys.take p) (by omega)]
        have htail : t.drop (offset + (p + 1)) = ys.drop p := by
          rw [← List.drop_drop, hd]
          rfl
        have hjoin : (y :: ys.take p) ++ t.drop (offset + (p + 1)) = t.drop offset := by
          rw [htail, hd, List.cons_append]
          rw [List.take_append_drop]
        rw [List.append_assoc, hjoin, hd]

theorem loadLoop_bad {α : Type} (resp : Nat → Resp α) (ps : Nat) :
    ∀ (k fuel offset : Nat) (acc : List α),
      (∀ i < k, ∃ xs, xs ≠ [] ∧ resp (offset + i * ps) = Resp.rows xs) →
      (resp (offset + k * ps) = Resp.noData ∨ resp (offset + k * ps) = Resp.failure) →
      k < fuel →
      loadLoop resp ps fuel offset acc = ⟨[], true⟩ := by
  intro k
  induction k with
  | zero =>
    intro fuel offset acc _ hbad hf
    rcases fuel with _ | f
    · omega
    · have h0 : offset + 0 * ps = offset := by omega
      rw [h0] at hbad
      show (match resp offset with
        | Resp.failure => (⟨[], true⟩ : LoadResult α)
        | Resp.noData => ⟨[], true⟩
        | Resp.rows [] => ⟨acc, false⟩
        | Resp.rows (x :: xs) =>
          loadLoop resp ps f (offset + ps) (acc ++ x :: xs)) = _
      rcases hbad with hb | hb
      · rw [hb]
      · rw [hb]
  | succ k ih =>
    intro fuel offset acc hgood hbad hf
    rcases fuel with _ | f
    · omega
    · rcases hgood 0 (Nat.succ_pos k) with ⟨xs, hne, hxs⟩
      have h0 : offset + 0 * ps = offset := by omega
      rw [h0] at hxs
      rcases xs with _ | ⟨x, xs'⟩
      · exact absurd rfl hne
      · show (match resp offset with
          | Resp.failure => (⟨[], true⟩ : LoadResult α)
          | Resp.noData => ⟨[], true⟩
          | Resp.rows [] => ⟨acc, false⟩
          | Resp.rows (x :: xs) =>
            loadLoop resp ps f (offset + ps) (acc ++ x :: xs)) = _
        rw [hxs]
        refine ih f (offset + ps) (acc ++ x :: xs') ?_ ?_ (by omega)
        · intro i hi
          rcases hgood (i + 1) (by omega) with ⟨zs, hzne, hz⟩
          refine ⟨zs, hzne, ?_⟩
          have harith : offset + (i + 1) * ps = offset + ps + i * ps := by ring
          rw [harith] at hz
          exact hz
        · have harith : offset + (k + 1) * ps = offset + ps + k * ps := by ring
          rw [harith] at hbad
          exact hbad

/-- Claim C5: against a fault-free store, `load_data_batched` concatenates
the successive `page_size` windows at offsets `0, page_size, 2*page_size, ...`
and stops at the first empty window, retrieving the complete row set with no
failure flag; and whenever pagination reaches a window whose response is a
`None` payload or a raised request error, the whole fetch returns the empty
row set with the failure flag set (reported via `st.error`), instead of
crashing or treating it as normal end of data. -/
theorem c5_load_batched :
    (∀ (α : Type) (t : List α) (ps : Nat), 0 < ps →
      load_data_batched t ps = ⟨t, false⟩) ∧
    (∀ (α : Type) (resp : Nat → Resp α) (ps k fuel : Nat),
      (∀ i < k, ∃ xs, xs ≠ [] ∧ resp (i * ps) = Resp.rows xs) →
      (resp (k * ps) = Resp.noData ∨ resp (k * ps) = Resp.failure) →
      k < fuel →
      loadLoop resp ps fuel 0 [] = ⟨[], true⟩) := by
  constructor
  · intro α t ps hps
    unfold load_data_batched
    rw [loadLoop_honest t ps hps (t.length + 1) 0 [] (by omega)]
    rw [List.drop_zero, List.nil_append]
  · intro α resp ps k fuel hgood hbad hf
    refine loadLoop_bad resp ps k fuel 0 [] ?_ ?_ hf
    · intro i hi
      rcases hgood i hi with ⟨xs, hne, hxs⟩
      exact ⟨xs, hne, by rw [Nat.zero_add]; exact hxs⟩
    · rw [Nat.zero_add]
      exact hbad

/-- Claim C5 witness: the statement at a concrete table and a concrete
failing response. -/
theorem c5_witness :
    load_data_batched [1, 2, 3] 2 = ⟨[1, 2, 3], false⟩ ∧
    loadLoop (fun _ => (Resp.noData : Resp Nat)) 2 1 0 [] = ⟨[], true⟩ := by
  refine ⟨c5_load_batched.1 Nat [1, 2, 3] 2 (by decide), ?_⟩
  refine c5_load_batched.2 Nat _ 2 0 1 ?_ (Or.inl rfl) (by decide)
  intro i hi
  exact absurd hi (Nat.not_lt_zero i)

/-! ## Claim C6 -/

theorem containsSub_nil (s : List Char) : containsSub [] s = true := by
  refine List.any_eq_true.mpr ⟨0, List.mem_range.mpr (Nat.succ_pos _), ?_⟩
  simp [List.isPrefixOf]

theorem searchPred_empty (p : Predicates) (h : p.search = "") (r : CombinedRow) :
    searchPred p r = true := by
  unfold searchPred
  rw [h]
  exact containsSub_nil _

theorem applyFilters_eq (rows : List CombinedRow) (p : Predicates) :
    applyFilters rows p = rows.filter fun r => rowPred p r && searchPred p r := by
  unfold applyFilters
  by_cases h : p.search = ""
  · rw [if_pos h]
    refine List.filter_congr fun r _ => ?_
    rw [searchPred_empty p h r, Bool.and_true]
  · rw [if_neg h, List.filter_filter]
    refine List.filter_congr fun r _ => ?_
    exact Bool.and_comm _ _

/-- Claim C6: the filter result is exactly the subset of records satisfying
the conjunction of all predicates (so its length is at most the input
length); and when every categorical selection equals the full sorted set of
observed options, the numeric slider range spans all observed
`quota_used_pct` values, and the substring search is empty, the filter
returns the records unchanged. -/
theorem c6_filter_conjunction :
    (∀ (rows : List CombinedRow) (p : Predicates),
      applyFilters rows p = (rows.filter fun r => rowPred p r && searchPred p r) ∧
      (applyFilters rows p).length ≤ rows.length) ∧
    (∀ (rows : List CombinedRow) (p : Predicates),
      (∀ r ∈ rows, definedRow r) →
      p.exporters = sortStr (uniqueVals (rows.map fun r => r.exporter)) →
      p.quota_statuses = sortStr (uniqueVals (rows.map fun r => r.quota_status)) →
      p.cooperatives = sortStr (uniqueVals (rows.map fun r => r.cooperative_name)) →
      p.certifications = sortStr (uniqueVals (rows.map fun r => r.certification)) →
      (∀ v ∈ rows.filterMap fun r => r.quota_used_pct,
        p.min_pct ≤ v ∧ v ≤ p.max_pct) →
      p.search = "" →
      applyFilters rows p = rows) := by
  constructor
  · intro rows p
    refine ⟨applyFilters_eq rows p, ?_⟩
    rw [applyFilters_eq rows p]
    exact List.length_filter_le _ _
  · intro rows p hdef hE hS hC hCert hRange hsearch
    rw [applyFilters_eq rows p]
    refine List.filter_eq_self.mpr fun r hr => ?_
    obtain ⟨hel, hex, hco, hce, _, _, hpc, hqs⟩ := hdef r hr
    have hmem : ∀ (sel : List String) (f : CombinedRow → Option String) (v : String),
        sel = sortStr (uniqueVals (rows.map f)) → f r = some v →
        cellIn (f r) sel = true := by
      intro sel f v hsel hv
      rw [hv]
      show decide (v ∈ sel) = true
      rw [hsel]
      refine decide_eq_true (mem_sortStr.mpr (List.mem_dedup.mpr ?_))
      exact List.mem_filterMap.mpr ⟨some v, List.mem_map.mpr ⟨r, hr, hv⟩, rfl⟩
    obtain ⟨v1, hv1⟩ := Option.isSome_iff_exists.mp hex
    obtain ⟨v2, hv2⟩ := Option.isSome_iff_exists.mp hqs
    obtain ⟨v3, hv3⟩ := Option.isSome_iff_exists.mp hco
    obtain ⟨v4, hv4⟩ := Option.isSome_iff_exists.mp hce
    have h1 := hmem p.exporters (fun r => r.exporter) v1 hE hv1
    have h2 := hmem p.quota_statuses (fun r => r.quota_status) v2 hS hv2
    have h3 := hmem p.cooperatives (fun r => r.cooperative_name) v3 hC hv3
    have h4 := hmem p.certifications (fun r => r.certification) v4 hCert hv4
    obtain ⟨w, hw⟩ := Option.isSome_iff_exists.mp hpc
    rcases hRange w (List.mem_filterMap.mpr ⟨r, hr, hw⟩) with ⟨hlo, hhi⟩
    have h5 : cellGe r.quota_used_pct p.min_pct = true := by
      rw [hw]
      exact decide_eq_true hlo
    have h6 : cellLe r.quota_used_pct p.max_pct = true := by
      rw [hw]
      exact decide_eq_true hhi
    simp [rowPred, h1, h2, h3, h4, h5, h6, searchPred_empty p hsearch r]

/-- Claim C6 witness: the identity case at a concrete record set. -/
theorem c6_witness :
    applyFilters [⟨"f1", some "L", some "E", some "C", some "S",
        some 5, some 3, some 6, some "OK"⟩]
      ⟨["E"], ["OK"], ["C"], ["S"], 0, 10, ""⟩
    = [⟨"f1", some "L", some "E", some "C", some "S",
        some 5, some 3, some 6, some "OK"⟩] :=
  c6_filter_conjunction.2 _ _ (by decide) (by decide) (by decide) (by decide)
    (by decide) (by decide) rfl

/-! ## Claim C9 -/

/-- Claim C9: on an empty record set every summary aggregate degrades to its
zero default without raising - `total_farmers`, the average of
`quota_used_pct`, `total_max_quota_kg` and `total_net_weight_kg` are all `0`
- and applying any predicate set to an empty record set returns the empty
set. -/
theorem c9_empty_safety :
    summarize [] = ⟨0, 0, 0, 0⟩ ∧ ∀ p : Predicates, applyFilters [] p = [] := by
  refine ⟨rfl, fun p => ?_⟩
  unfold applyFilters
  split <;> rfl

/-! ## Claim C10 -/

theorem c10_resolve_eq (sel opts : List String) (hAll : "All" ∈ sel)
    (hlen : 1 < sel.length) :
    resolveAll sel opts = sel.filter fun o => !(o == "All") := by
  unfold resolveAll
  rw [if_pos ⟨hAll, hlen⟩]

/-- Claim C10: when the user's selection contains 'All' together with at
least one other option, 'All' is discarded and the filter restricts to
exactly the other explicitly selected options; a sole 'All' expands to the
full observed option set. -/
theorem c10_all_pseudo_option :
    (∀ sel opts : List String, "All" ∈ sel → 1 < sel.length →
      resolveAll sel opts = (sel.filter fun o => !(o == "All")) ∧
      "All" ∉ resolveAll sel opts ∧
      (∀ x, x ∈ resolveAll sel opts ↔ x ∈ sel ∧ x ≠ "All")) ∧
    (∀ cells : List (Option String), "All" ∉ uniqueVals cells →
      ∀ x, x ∈ resolveAll ["All"] (optionsOf cells) ↔ x ∈ uniqueVals cells) := by
  constructor
  · intro sel opts hAll hlen
    have heq := c10_resolve_eq sel opts hAll hlen
    refine ⟨heq, ?_, ?_⟩
    · rw [heq]
      intro hmem
      have := (List.mem_filter.mp hmem).2
      simp at this
    · intro x
      rw [heq, List.mem_filter]
      constructor
      · rintro ⟨h1, h2⟩
        refine ⟨h1, ?_⟩
        simpa using h2
      · rintro ⟨h1, h2⟩
        refine ⟨h1, ?_⟩
        simpa using h2
  · intro cells hAll x
    unfold resolveAll
    rw [if_neg (by simp), if_pos ⟨List.mem_singleton.mpr rfl, rfl,
      List.mem_cons_self "All" (sortStr (uniqueVals cells))⟩]
    have hfilter : ((optionsOf cells).filter fun o => !(o == "All"))
        = sortStr (uniqueVals cells) := by
      unfold optionsOf
      rw [List.filter_cons]
      have hA : (!("All" == "All")) = false := by decide
      rw [hA]
      simp only [Bool.false_eq_true, if_false]
      refine List.filter_eq_self.mpr fun o ho => ?_
      have : o ∈ uniqueVals cells := mem_sortStr.mp ho
      have hne : o ≠ "All" := fun h => hAll (h ▸ this)
      simpa using hne
    rw [hfilter]
    exact mem_sortStr.trans mem_sortStr

/-- Claim C10 witness: the statement at concrete selections. -/
theorem c10_witness :
    (resolveAll ["All", "x"] ["All", "x"] = (["All", "x"].filter fun o => !(o == "All")) ∧
     "All" ∉ resolveAll ["All", "x"] ["All", "x"] ∧
     (∀ y, y ∈ resolveAll ["All", "x"] ["All", "x"] ↔ y ∈ ["All", "x"] ∧ y ≠ "All")) ∧
    ("x" ∈ resolveAll ["All"] (optionsOf [some "x"]) ↔ "x" ∈ uniqueVals [some "x"]) :=
  ⟨c10_all_pseudo_option.1 ["All", "x"] ["All", "x"] (by decide) (by decide),
   c10_all_pseudo_option.2 [some "x"] (by decide) "x"⟩
